import Mathlib

/-!
Shallow embedding of the `match` matchmaking server (src/cache.js and
src/socket-events/socket-events.js) over an explicit state of the Redis
store, together with theorems settling the frozen claims about the spec.

Modelling conventions:
* The Redis store is a single `GameState` record.  Player records
  (`SET playerID json`) are `players : String → Option PlayerInfo`;
  per-room membership lists (`LPUSH roomName playerID`) are
  `members : RoomName → List String`, head = most recently pushed, exactly
  as Redis `LPUSH`/`LRANGE` order them.
* Room names `room#<n>` are represented by the number `n` alone
  (`RoomName.num`): the `room#` prefix is constant, so the name is
  determined by, and determines, the counter value used to build it.
* `LREM key -1 v` (remove one occurrence scanning tail → head) is
  `lremLast`.
* The two blocking-semaphore patterns (`BLPOP`/`LPUSH` on
  `CREATE_ROOM_TOKEN` and on `<room>_lock_token`) are modelled by natural
  counters of available token units; `BLPOP` blocks until a unit exists,
  so the sequential embedding describes the executions in which the
  acquisition succeeds, and tracks the unit counts.
* JavaScript exceptions (`JSON.parse(null)` followed by a property access
  or destructuring of `null`) are modelled by `Option`: `none` means the
  operation throws instead of resolving.
-/

namespace MatchServer

/-- Name of a room, `room#<num>` in the JavaScript sources. -/
structure RoomName where
  num : Int
deriving DecidableEq

/-- A player record as stored (JSON-encoded) under the player's id:
`{ username, user_id, room, ready }`.  The JavaScript `room` field is
`false` while the player is in no room and a room name once joined; we
model it as `Option RoomName`. -/
structure PlayerInfo where
  username : String
  user_id : String
  room : Option RoomName
  ready : Bool
deriving DecidableEq

/-- The full state of the Redis store used by `GameCache`. -/
structure GameState where
  players : String → Option PlayerInfo
  members : RoomName → List String
  staged : List RoomName
  playing : List RoomName
  maxRoomNumUsed : Int
  selectionTokens : Nat
  joinTokens : RoomName → Nat

/-- The Redis store before any key has been written: every read misses. -/
def emptyState : GameState :=
  { players := fun _ => none
    members := fun _ => []
    staged := []
    playing := []
    maxRoomNumUsed := -1
    selectionTokens := 0
    joinTokens := fun _ => 0 }

/-- Remove the first occurrence of `v` scanning head → tail
(helper for `lremLast`). -/
def lremFirst {α : Type} [DecidableEq α] : List α → α → List α
  | [], _ => []
  | x :: xs, v => if x = v then xs else x :: lremFirst xs v

/-- Redis `LREM key -1 v`: remove one occurrence of `v` scanning the list
from the tail towards the head. -/
def lremLast {α : Type} [DecidableEq α] (l : List α) (v : α) : List α :=
  (lremFirst l.reverse v).reverse

/-- `GameCache` constructor (src/cache.js lines 10–14): unconditionally
`SET MAX_ROOM_NUM_USED -1` and `LPUSH CREATE_ROOM_TOKEN GREEN`. -/
def gameCacheInit (s : GameState) : GameState :=
  { s with maxRoomNumUsed := -1, selectionTokens := s.selectionTokens + 1 }

/-- `GameCache.createNewRoom` (src/cache.js lines 20–27): `INCR` the
counter, derive the name, `LPUSH` it onto the staged queue, return the
name. -/
def createNewRoom (s : GameState) : RoomName × GameState :=
  let roomNum := s.maxRoomNumUsed + 1
  let roomName : RoomName := ⟨roomNum⟩
  (roomName, { s with maxRoomNumUsed := roomNum, staged := roomName :: s.staged })

/-- `GameCache.getAllPlayingRooms` (src/cache.js line 33). -/
def getAllPlayingRooms (s : GameState) : List RoomName := s.playing

/-- `GameCache.getAllActiveRooms` (src/cache.js line 41). -/
def getAllActiveRooms (s : GameState) : List RoomName := s.staged

/-- `GameCache.getCurrentPlayersInRoom` without `fullData`
(src/cache.js line 52). -/
def getCurrentPlayersInRoom (s : GameState) (roomName : RoomName) : List String :=
  s.members roomName

/-- `GameCache.getCurrentPlayersCountInRoom` (src/cache.js line 73):
`LLEN roomName`. -/
def getCurrentPlayersCountInRoom (s : GameState) (roomName : RoomName) : Nat :=
  (s.members roomName).length

/-- `GameCache.registerPlayer` (src/cache.js line 112): `SET` the record. -/
def registerPlayer (s : GameState) (playerID : String) (info : PlayerInfo) : GameState :=
  { s with players := fun q => if q = playerID then some info else s.players q }

/-- `GameCache.getPlayerInfo` (src/cache.js line 139). -/
def getPlayerInfo (s : GameState) (playerID : String) : Option PlayerInfo :=
  s.players playerID

/-- `GameCache.joinRoom` (src/cache.js lines 84–92): read the player's
record, set its `room` field, then atomically (`MULTI`) `LPUSH` the id on
the room and `SET` the updated record.  If the player has no record,
`palyerInfo.room = roomName` throws on `null` — modelled as `none`. -/
def joinRoom (s : GameState) (roomName : RoomName) (playerID : String) :
    Option GameState :=
  match s.players playerID with
  | none => none
  | some info =>
      some { s with
        members := fun r => if r = roomName then playerID :: s.members r else s.members r
        players := fun q =>
          if q = playerID then some { info with room := some roomName } else s.players q }

/-- `GameCache.leaveRoom` (src/cache.js lines 101–103):
`LREM roomName -1 playerID`.  The player's stored record is not touched. -/
def leaveRoom (s : GameState) (roomName : RoomName) (playerID : String) : GameState :=
  { s with
    members := fun r => if r = roomName then lremLast (s.members r) playerID else s.members r }

/-- `GameCache.deletePlayer` (src/cache.js lines 122–131): destructure
`room` out of the stored record (throws when the record is absent,
modelled as `none`), cascade a `leaveRoom` when `room` is truthy, `DEL`
the record, and return the `room` value. -/
def deletePlayer (s : GameState) (playerID : String) :
    Option (GameState × Option RoomName) :=
  match s.players playerID with
  | none => none
  | some info =>
      let s1 := match info.room with
        | some r => leaveRoom s r playerID
        | none => s
      some ({ s1 with players := fun q => if q = playerID then none else s1.players q },
        info.room)

/-- `GameCache.lockRoomJoins` (src/cache.js line 197):
`BLPOP <room>_lock_token` — consume one join-lock unit (blocks until one
is available). -/
def lockRoomJoins (s : GameState) (roomName : RoomName) : GameState :=
  { s with joinTokens := fun r => if r = roomName then s.joinTokens r - 1 else s.joinTokens r }

/-- `GameCache.unlockRoomJoins` (src/cache.js line 207):
`LPUSH <room>_lock_token GREEN_LIGHT`. -/
def unlockRoomJoins (s : GameState) (roomName : RoomName) : GameState :=
  { s with joinTokens := fun r => if r = roomName then s.joinTokens r + 1 else s.joinTokens r }

/-- `GameCache.getAvaiableRoom` (src/cache.js lines 148–162): `BLPOP` the
selection token, `LRANGE STAGED_ROOMS_QUEUE 0 0`; if a staged room
exists use it, else create one and unlock its join lock; `LPUSH` the
selection token back and return the room. -/
def getAvaiableRoom (s : GameState) : GameState × RoomName :=
  let s0 := { s with selectionTokens := s.selectionTokens - 1 }
  match s0.staged with
  | r :: _ => ({ s0 with selectionTokens := s0.selectionTokens + 1 }, r)
  | [] =>
      let p := createNewRoom s0
      let s2 := unlockRoomJoins p.2 p.1
      ({ s2 with selectionTokens := s2.selectionTokens + 1 }, p.1)

/-- `GameCache.startGameInRoom` (src/cache.js lines 169–176):
`LREM STAGED_ROOMS_QUEUE -1 roomName`; if an entry was removed, `LPUSH`
the room on the playing queue and resolve truthy, else resolve `false`. -/
def startGameInRoom (s : GameState) (roomName : RoomName) : GameState × Bool :=
  let s1 := { s with staged := lremLast s.staged roomName }
  if roomName ∈ s.staged then
    ({ s1 with playing := roomName :: s1.playing }, true)
  else
    (s1, false)

/-- `GameCache.endGameInRoom` (src/cache.js lines 184–189): atomically
`LREM PLAYING_ROOMS_QUEUE -1 roomName` and `DEL roomName` (a deleted
Redis list reads as empty). -/
def endGameInRoom (s : GameState) (roomName : RoomName) : GameState :=
  { s with
    playing := lremLast s.playing roomName
    members := fun r => if r = roomName then [] else s.members r }

/-! ### Orchestrator (src/socket-events/socket-events.js)

`SocketEventsHandler` drives the cache in response to socket events.  Only
the store-visible logic is embedded; socket bookkeeping (`socket.join`,
the `socket.rooms.length > 1` guard) and the emitted payloads that the
claims mention are modelled explicitly. -/

/-- `SocketEventsHandler.handleGameStart` (socket-events.js lines
137–143): run `startGameInRoom`; the `game_start` event is emitted to the
room iff the resolved status is truthy.  The returned `Bool` is that
status, i.e. whether `game_start` was emitted. -/
def handleGameStart (s : GameState) (roomName : RoomName) : GameState × Bool :=
  startGameInRoom s roomName

/-- The optimistic capacity check of `handlePairRequest`
(socket-events.js lines 107–110): read the member count and abandon when
it already equals `maxPlayersAllowed` (strict `===`). -/
def pairPrecheckPasses (maxPlayers : Nat) (s : GameState) (roomName : RoomName) : Bool :=
  decide (getCurrentPlayersCountInRoom s roomName ≠ maxPlayers)

/-- The lock-guarded admission segment of `handlePairRequest`
(socket-events.js lines 111–127): acquire the room's join lock, re-read
the member count, admit the player via `joinRoom` unconditionally, start
the game when the re-read count plus one equals `maxPlayersAllowed`, and
release the lock.  Returns the new state and whether `game_start` was
emitted; `none` when `joinRoom` throws. -/
def pairAdmitPhase (maxPlayers : Nat) (playerID : String) (roomName : RoomName)
    (s : GameState) : Option (GameState × Bool) :=
  let s1 := lockRoomJoins s roomName
  let c := getCurrentPlayersCountInRoom s1 roomName
  match joinRoom s1 roomName playerID with
  | none => none
  | some s2 =>
      let p := if c + 1 = maxPlayers then handleGameStart s2 roomName else (s2, false)
      some (unlockRoomJoins p.1 roomName, p.2)

/-- Whether the stored record of `pid` has `ready = true` (a missing
record counts as not ready). -/
def readyPred (s : GameState) (pid : String) : Bool :=
  match s.players pid with
  | some info => info.ready
  | none => false

/-- Number of distinct members of `roomName` whose stored record has
`ready = true` — the room's distinct-ready count of the spec. -/
def readyCount (s : GameState) (roomName : RoomName) : Nat :=
  ((s.members roomName).dedup.filter (readyPred s)).length

/-- Modelled from the spec: `GameCache.markPlayerAsReady` is called by
`SocketEventsHandler.handlePlayerReady` (socket-events.js line 169) but
its definition is missing from src/cache.js.  Per the spec (§4.4, §8) it
increments the room's distinct-ready count idempotently per player — a
player readying twice counts once — and resolves to the running
distinct-ready total; the player record carries the `ready` flag
(§3 Data model). -/
def markPlayerAsReady (s : GameState) (playerID : String) (roomName : RoomName) :
    GameState × Nat :=
  let s1 := match s.players playerID with
    | some info =>
        { s with players := fun q =>
            if q = playerID then some { info with ready := true } else s.players q }
    | none => s
  (s1, readyCount s1 roomName)

/-- Payload of the `player_ready_announcement` event. -/
structure ReadyAnnouncement where
  user_id : String
  username : String
  total_ready_count : Nat
deriving DecidableEq

/-- `SocketEventsHandler.handlePlayerReady` (socket-events.js lines
164–181): mark the player ready, emit the announcement carrying the
returned running total, and when the total reaches `minPlayersAllowed`
invoke `handleGameStart`.  Returns the state, the emitted announcement,
and whether `game_start` was emitted. -/
def handlePlayerReady (minPlayers : Nat) (s : GameState) (playerID username : String)
    (roomName : RoomName) : GameState × ReadyAnnouncement × Bool :=
  let p := markPlayerAsReady s playerID roomName
  let ann : ReadyAnnouncement := ⟨playerID, username, p.2⟩
  let q := if minPlayers ≤ p.2 then handleGameStart p.1 roomName else (p.1, false)
  (q.1, ann, q.2)

/-! ### The Registry–Directory consistency invariant (spec §3) -/

/-- A player's stored `room` field names exactly the rooms whose
membership list contains the player's id. -/
def Consistent (s : GameState) : Prop :=
  ∀ pid info, s.players pid = some info →
    (∀ r, info.room = some r → pid ∈ s.members r) ∧
    (∀ r, pid ∈ s.members r → info.room = some r)

/-! ### Lemmas about `lremFirst` and `lremLast` -/

theorem lremFirst_of_not_mem {α : Type} [DecidableEq α] {l : List α} {v : α}
    (h : v ∉ l) : lremFirst l v = l := by
  induction l with
  | nil => rfl
  | cons x xs ih =>
      simp only [List.mem_cons, not_or] at h
      simp only [lremFirst, if_neg (Ne.symm h.1)]
      rw [ih h.2]

theorem lremFirst_decomp {α : Type} [DecidableEq α] {l : List α} {v : α}
    (h : v ∈ l) : ∃ a b, l = a ++ v :: b ∧ v ∉ a ∧ lremFirst l v = a ++ b := by
  induction l with
  | nil => cases h
  | cons x xs ih =>
      by_cases hx : x = v
      · subst hx
        exact ⟨[], xs, rfl, List.not_mem_nil x, by simp [lremFirst]⟩
      · have hmem : v ∈ xs := by
          rcases List.mem_cons.mp h with h1 | h2
          · exact absurd h1.symm hx
          · exact h2
        obtain ⟨a, b, hl, hna, hr⟩ := ih hmem
        refine ⟨x :: a, b, by rw [hl, List.cons_append], ?_, ?_⟩
        · intro hv
          rcases List.mem_cons.mp hv with h1 | h2
          · exact hx h1.symm
          · exact hna h2
        · simp only [lremFirst, if_neg hx, hr, List.cons_append]

theorem lremLast_of_not_mem {α : Type} [DecidableEq α] {l : List α} {v : α}
    (h : v ∉ l) : lremLast l v = l := by
  unfold lremLast
  rw [lremFirst_of_not_mem (by simpa using h), List.reverse_reverse]

theorem lremLast_decomp {α : Type} [DecidableEq α] {l : List α} {v : α}
    (h : v ∈ l) : ∃ a b, l = a ++ v :: b ∧ v ∉ b ∧ lremLast l v = a ++ b := by
  obtain ⟨a, b, hl, hna, hr⟩ := lremFirst_decomp (l := l.reverse) (v := v)
    (by simpa using h)
  refine ⟨b.reverse, a.reverse, ?_, by simpa using hna, ?_⟩
  · have := congrArg List.reverse hl
    simpa [List.reverse_append] using this
  · unfold lremLast
    rw [hr]
    simp [List.reverse_append]

theorem lremLast_sublist {α : Type} [DecidableEq α] (l : List α) (v : α) :
    List.Sublist (lremLast l v) l := by
  by_cases h : v ∈ l
  · obtain ⟨a, b, hl, _, hr⟩ := lremLast_decomp h
    rw [hr, hl]
    exact (List.append_sublist_append_left a).mpr (List.sublist_cons_self v b)
  · rw [lremLast_of_not_mem h]

theorem mem_lremLast_of_ne {α : Type} [DecidableEq α] {l : List α} {v x : α}
    (hx : x ≠ v) : x ∈ lremLast l v ↔ x ∈ l := by
  constructor
  · intro h
    exact (lremLast_sublist l v).subset h
  · intro h
    by_cases hv : v ∈ l
    · obtain ⟨a, b, hl, _, hr⟩ := lremLast_decomp hv
      rw [hl] at h
      rw [hr]
      rcases List.mem_append.mp h with h1 | h2
      · exact List.mem_append.mpr (Or.inl h1)
      · rcases List.mem_cons.mp h2 with h3 | h4
        · exact absurd h3 hx
        · exact List.mem_append.mpr (Or.inr h4)
    · rwa [lremLast_of_not_mem hv]

theorem count_lremLast {α : Type} [DecidableEq α] {l : List α} {v : α}
    (h : v ∈ l) : (lremLast l v).count v = l.count v - 1 := by
  obtain ⟨a, b, hl, _, hr⟩ := lremLast_decomp h
  rw [hr, hl]
  simp [List.count_append, List.count_cons]

theorem not_mem_lremLast_of_count_one {α : Type} [DecidableEq α] {l : List α} {v : α}
    (h : l.count v = 1) : v ∉ lremLast l v := by
  have hv : v ∈ l := by
    by_contra hn
    rw [List.count_eq_zero_of_not_mem hn] at h
    exact one_ne_zero h.symm
  have := count_lremLast hv
  rw [h] at this
  intro hmem
  have := List.count_pos_iff.mpr hmem
  omega

/-! ### Concrete scenario states -/

/-- The room `room#0`, the first name the counter produces. -/
def roomZ : RoomName := ⟨0⟩

/-- A freshly registered player record, as `handleConnect` builds it:
`room` is `false` (here `none`), `ready` is `false`. -/
def mkInfo (u : String) : PlayerInfo := ⟨u, u, none, false⟩

/-- `joinRoom` with the promise resolved; the scenarios only apply it to
registered players, where `joinRoom` never throws. -/
def joinD (s : GameState) (r : RoomName) (pid : String) : GameState :=
  (joinRoom s r pid).getD s

/-! ### C10 — the constructor resets the counter and pushes a token -/

/-- C10: constructing a `GameCache` unconditionally resets
`MAX_ROOM_NUM_USED` to `-1` and pushes a fresh selection-lock token, so
after any construction the first `createNewRoom` returns `room#0`
whatever the store held before, and one more selection-lock unit is
outstanding. -/
theorem c10_constructor_resets (s : GameState) :
    (gameCacheInit s).maxRoomNumUsed = -1 ∧
    (gameCacheInit s).selectionTokens = s.selectionTokens + 1 ∧
    (createNewRoom (gameCacheInit s)).1 = roomZ := by
  refine ⟨rfl, rfl, ?_⟩
  show RoomName.mk (-1 + 1) = roomZ
  norm_num [roomZ]

/-! ### C9 — the Directory imposes no capacity limit -/

/-- C9: for every registered player and every room, `joinRoom` appends
the player unconditionally — whatever the current member count, the
membership grows by one; no capacity check exists in the Directory. -/
theorem c9_joinRoom_no_capacity_limit (s : GameState) (r : RoomName) (pid : String)
    (info : PlayerInfo) (h : s.players pid = some info) :
    ∃ s2, joinRoom s r pid = some s2 ∧
      s2.members r = pid :: s.members r ∧
      getCurrentPlayersCountInRoom s2 r = getCurrentPlayersCountInRoom s r + 1 := by
  simp only [joinRoom, h]
  refine ⟨_, rfl, ?_, ?_⟩ <;>
    simp [getCurrentPlayersCountInRoom]

/-- Players a, b, c registered; a and b already fill `room#0` to the
default capacity of 2. -/
def c9Sfull : GameState :=
  joinD (joinD ((createNewRoom (registerPlayer (registerPlayer (registerPlayer
    (gameCacheInit emptyState) "a" (mkInfo "a")) "b" (mkInfo "b")) "c" (mkInfo "c"))).2)
    roomZ "a") roomZ "b"

/-- Witness for C9: with `room#0` already holding 2 players (the default
configured maximum), `joinRoom` still admits a third. -/
theorem c9_witness :
    getCurrentPlayersCountInRoom c9Sfull roomZ = 2 ∧
    Option.map (fun s2 => getCurrentPlayersCountInRoom s2 roomZ)
      (joinRoom c9Sfull roomZ "c") = some 3 := by
  obtain ⟨s2, hj, hm, hc⟩ :=
    c9_joinRoom_no_capacity_limit c9Sfull roomZ "c" (mkInfo "c") (by decide)
  have h2 : getCurrentPlayersCountInRoom c9Sfull roomZ = 2 := by decide
  refine ⟨h2, ?_⟩
  rw [hj]
  simp only [Option.map_some']
  rw [hc, h2]

/-! ### C8 — `getAvaiableRoom` always returns a staged room -/

/-- C8: if the staged list is non-empty, `getAvaiableRoom` returns an
existing staged room and creates nothing; if it is empty, it creates
exactly one room, which is staged when the call returns, and returns its
name.  In both cases the returned room is staged afterwards. -/
theorem c8_getAvaiableRoom_staged (s : GameState) :
    (getAvaiableRoom s).2 ∈ (getAvaiableRoom s).1.staged ∧
    (s.staged ≠ [] →
      (getAvaiableRoom s).2 ∈ s.staged ∧
      (getAvaiableRoom s).1.staged = s.staged ∧
      (getAvaiableRoom s).1.maxRoomNumUsed = s.maxRoomNumUsed) ∧
    (s.staged = [] →
      (getAvaiableRoom s).1.staged = [(getAvaiableRoom s).2] ∧
      (getAvaiableRoom s).2 = ⟨s.maxRoomNumUsed + 1⟩ ∧
      (getAvaiableRoom s).1.maxRoomNumUsed = s.maxRoomNumUsed + 1) := by
  cases hst : s.staged with
  | nil => simp [getAvaiableRoom, hst, createNewRoom, unlockRoomJoins]
  | cons r rest => simp [getAvaiableRoom, hst]

/-- A store whose staged list holds exactly `room#0`. -/
def c8One : GameState := (createNewRoom (gameCacheInit emptyState)).2

/-- Witness for C8: on an empty staged list the call creates and returns
`room#0`, staging it; on the staged list `[room#0]` it returns `room#0`
and neither the staged list nor the counter moves. -/
theorem c8_witness :
    (getAvaiableRoom (gameCacheInit emptyState)).2 = roomZ ∧
    (getAvaiableRoom (gameCacheInit emptyState)).1.staged = [roomZ] ∧
    (getAvaiableRoom c8One).2 ∈ c8One.staged ∧
    (getAvaiableRoom c8One).1.staged = c8One.staged ∧
    (getAvaiableRoom c8One).1.maxRoomNumUsed = 0 := by
  obtain ⟨-, -, hemp⟩ := c8_getAvaiableRoom_staged (gameCacheInit emptyState)
  obtain ⟨-, hne, -⟩ := c8_getAvaiableRoom_staged c8One
  obtain ⟨hs1, hr1, -⟩ := hemp rfl
  obtain ⟨hm2, hs2, hc2⟩ := hne (by decide)
  have hz : (getAvaiableRoom (gameCacheInit emptyState)).2 = roomZ := by
    rw [hr1]; show RoomName.mk (-1 + 1) = roomZ; norm_num [roomZ]
  refine ⟨hz, ?_, hm2, hs2, ?_⟩
  · rw [hs1, hz]
  · rw [hc2]; decide

/-! ### C5 — `startGame` transitions a room exactly once -/

/-- C5: on a staged list holding exactly one entry for the room,
`handleGameStart` (and so `startGameInRoom`) transitions staged →
playing and reports true — the `game_start` notice is emitted exactly
when this status is truthy — while a second call finds nothing to
remove, reports false, and leaves the state untouched. -/
theorem c5_start_game_once (s : GameState) (r : RoomName)
    (h : s.staged.count r = 1) :
    (handleGameStart s r).2 = true ∧
    r ∈ (handleGameStart s r).1.playing ∧
    r ∉ (handleGameStart s r).1.staged ∧
    (handleGameStart (handleGameStart s r).1 r).2 = false ∧
    (handleGameStart (handleGameStart s r).1 r).1 = (handleGameStart s r).1 := by
  have hmem : r ∈ s.staged := by
    by_contra hn
    rw [List.count_eq_zero_of_not_mem hn] at h
    exact one_ne_zero h.symm
  have hnot : r ∉ lremLast s.staged r := not_mem_lremLast_of_count_one h
  unfold handleGameStart startGameInRoom
  rw [if_pos hmem]
  refine ⟨rfl, List.mem_cons_self r _, hnot, ?_, ?_⟩
  · rw [if_neg hnot]
  · rw [if_neg hnot, lremLast_of_not_mem hnot]

/-- Witness for C5: with staged list `[room#0]`, the first
`handleGameStart` reports true and the second reports false. -/
theorem c5_witness :
    (handleGameStart c8One roomZ).2 = true ∧
    (handleGameStart (handleGameStart c8One roomZ).1 roomZ).2 = false := by
  have h := c5_start_game_once c8One roomZ (by decide)
  exact ⟨h.1, h.2.2.2.1⟩

/-! ### C4 — `deletePlayer` is not idempotent -/

/-- C4 (amended): deleting a registered player removes the record and
returns the `room` value it held (`none` standing for the JavaScript
`false`); but deleting an id with no stored record — never registered,
or already deleted — throws (`JSON.parse(null)` destructured) instead of
safely returning "none". -/
theorem c4_deletePlayer_behaviour :
    (∀ s pid info, s.players pid = some info →
      ∃ s2, deletePlayer s pid = some (s2, info.room) ∧ s2.players pid = none) ∧
    (∀ s pid, s.players pid = none → deletePlayer s pid = none) := by
  constructor
  · intro s pid info h
    simp only [deletePlayer, h]
    exact ⟨_, rfl, by simp⟩
  · intro s pid h
    simp only [deletePlayer, h]

/-- The store right after registering player p on a fresh cache. -/
def c4Reg : GameState := registerPlayer (gameCacheInit emptyState) "p" (mkInfo "p")

/-- The store after the first (successful) `deletePlayer` of p. -/
def c4Deleted : GameState := ((deletePlayer c4Reg "p").getD (emptyState, none)).1

/-- C4 counterexample: the first delete of p succeeds and returns the
"none" room, but the second delete of the same id — and a delete of a
never-registered id — rejects (throws) instead of being a safe no-op
returning "none". -/
theorem c4_counterexample :
    deletePlayer c4Reg "p" = some (c4Deleted, none) ∧
    deletePlayer c4Deleted "p" = none ∧
    deletePlayer emptyState "ghost" = none ∧
    ¬ ∃ s2, deletePlayer c4Deleted "p" = some (s2, none) := by
  refine ⟨rfl, rfl, rfl, ?_⟩
  rintro ⟨s2, hs⟩
  rw [show deletePlayer c4Deleted "p" = none from rfl] at hs
  cases hs

/-- Witness for C4: the amended behaviour evaluated on player p —
deleting the registered p yields the "none" room and erases the record;
deleting again rejects. -/
theorem c4_witness :
    Option.map Prod.snd (deletePlayer c4Reg "p") = some none ∧
    deletePlayer ((deletePlayer c4Reg "p").getD (emptyState, none)).1 "p" = none := by
  obtain ⟨s2, hd, hp⟩ :=
    c4_deletePlayer_behaviour.1 c4Reg "p" (mkInfo "p") (by decide)
  refine ⟨by rw [hd]; rfl, ?_⟩
  have h2 := c4_deletePlayer_behaviour.2 ((deletePlayer c4Reg "p").getD (emptyState, none)).1 "p"
  apply h2
  rw [hd]
  exact hp

/-! ### C3 — `leaveRoom` removes the oldest, not the most recent, match -/

/-- C3 (amended): `leaveRoom` removes exactly the oldest matching
occurrence of the player id — the one nearest the tail of the
most-recent-first membership list, i.e. the earliest join — leaving any
newer duplicate entries in place, and is a no-op when the id is absent
(`LREM room -1 id` scans tail → head). -/
theorem c3_leaveRoom_removes_oldest (s : GameState) (r : RoomName) (pid : String) :
    (pid ∉ s.members r → (leaveRoom s r pid).members r = s.members r) ∧
    (pid ∈ s.members r → ∃ a b, s.members r = a ++ pid :: b ∧ pid ∉ b ∧
      (leaveRoom s r pid).members r = a ++ b) := by
  constructor
  · intro h
    show (if r = r then lremLast (s.members r) pid else s.members r) = s.members r
    rw [if_pos rfl, lremLast_of_not_mem h]
  · intro h
    obtain ⟨a, b, hl, hnb, hr⟩ := lremLast_decomp h
    refine ⟨a, b, hl, hnb, ?_⟩
    show (if r = r then lremLast (s.members r) pid else s.members r) = a ++ b
    rw [if_pos rfl, hr]

/-- A membership list with a duplicate join: p joins, q joins, p joins
again, so `room#0` holds `[p, q, p]` most-recent-first. -/
def c3S : GameState :=
  joinD (joinD (joinD ((createNewRoom (registerPlayer (registerPlayer
    (gameCacheInit emptyState) "p" (mkInfo "p")) "q" (mkInfo "q"))).2)
    roomZ "p") roomZ "q") roomZ "p"

/-- C3 counterexample: on the membership `[p, q, p]`
(most-recent-first), `leaveRoom` yields `[p, q]` — it removed the oldest
occurrence and kept the most recent one — whereas removing the most
recent occurrence, as the claim states, would yield `[q, p]`. -/
theorem c3_counterexample :
    c3S.members roomZ = ["p", "q", "p"] ∧
    (leaveRoom c3S roomZ "p").members roomZ = ["p", "q"] ∧
    (leaveRoom c3S roomZ "p").members roomZ ≠ ["q", "p"] := by
  refine ⟨?_, ?_, ?_⟩ <;> decide

/-- Witness for C3: the no-op branch on an absent id, and the
decomposition branch evaluated on the duplicate membership `[p, q, p]`. -/
theorem c3_witness :
    (leaveRoom c3S roomZ "x").members roomZ = ["p", "q", "p"] := by
  have h := (c3_leaveRoom_removes_oldest c3S roomZ "x").1 (by decide)
  rw [h]
  decide

/-! ### C1 — Registry–Directory consistency -/

/-- C1 (amended): `joinRoom` and `deletePlayer` keep the Registry and the
Directory consistent — `joinRoom` sets the player's `room` field in the
same `MULTI` block that appends the membership entry, and `deletePlayer`
cascades the room-leave before deleting the record — but `leaveRoom` only
removes the membership entry and never clears the stored `room` field, so
the invariant does not survive `leaveRoom`. -/
theorem c1_consistency :
    (∀ s r pid info s2, Consistent s → s.players pid = some info → info.room = none →
      joinRoom s r pid = some s2 → Consistent s2) ∧
    (∀ s pid s2 ret, Consistent s → deletePlayer s pid = some (s2, ret) → Consistent s2) := by
  constructor
  · intro s r pid info s2 hC hreg hnone hj
    simp only [joinRoom, hreg, Option.some.injEq] at hj
    subst hj
    intro q infq hq
    have hq2 : (if q = pid then some { info with room := some r } else s.players q)
        = some infq := hq
    by_cases hqp : q = pid
    · subst hqp
      rw [if_pos rfl] at hq2
      injection hq2 with hq3
      subst hq3
      constructor
      · intro r2 hr2
        injection hr2 with hr3
        subst hr3
        show q ∈ (if r = r then q :: s.members r else s.members r)
        rw [if_pos rfl]
        exact List.mem_cons_self q _
      · intro r2 hm2
        have hm3 : q ∈ (if r2 = r then q :: s.members r2 else s.members r2) := hm2
        by_cases hr : r2 = r
        · subst hr
          rfl
        · rw [if_neg hr] at hm3
          have := (hC q info hreg).2 r2 hm3
          rw [hnone] at this
          cases this
    · rw [if_neg hqp] at hq2
      have hCq := hC q infq hq2
      constructor
      · intro r2 hr2
        have hm := hCq.1 r2 hr2
        show q ∈ (if r2 = r then pid :: s.members r2 else s.members r2)
        by_cases hr : r2 = r
        · rw [if_pos hr]
          exact List.mem_cons_of_mem pid hm
        · rw [if_neg hr]
          exact hm
      · intro r2 hm2
        have hm3 : q ∈ (if r2 = r then pid :: s.members r2 else s.members r2) := hm2
        by_cases hr : r2 = r
        · rw [if_pos hr] at hm3
          rcases List.mem_cons.mp hm3 with h1 | h2
          · exact absurd h1 hqp
          · exact hCq.2 r2 h2
        · rw [if_neg hr] at hm3
          exact hCq.2 r2 hm3
  · intro s pid s2 ret hC hd
    cases hreg : s.players pid with
    | none =>
        simp only [deletePlayer, hreg] at hd
        exact Option.noConfusion hd
    | some info =>
        cases hroom : info.room with
        | none =>
            simp only [deletePlayer, hreg, hroom, Option.some.injEq, Prod.mk.injEq] at hd
            obtain ⟨hs2, -⟩ := hd
            subst hs2
            intro q infq hq
            have hq2 : (if q = pid then none else s.players q) = some infq := hq
            by_cases hqp : q = pid
            · rw [if_pos hqp] at hq2
              cases hq2
            · rw [if_neg hqp] at hq2
              exact hC q infq hq2
        | some r0 =>
            simp only [deletePlayer, hreg, hroom, Option.some.injEq, Prod.mk.injEq] at hd
            obtain ⟨hs2, -⟩ := hd
            subst hs2
            intro q infq hq
            have hq2 : (if q = pid then none else (leaveRoom s r0 pid).players q) = some infq
              := hq
            by_cases hqp : q = pid
            · rw [if_pos hqp] at hq2
              cases hq2
            · rw [if_neg hqp] at hq2
              have hq3 : s.players q = some infq := hq2
              have hCq := hC q infq hq3
              constructor
              · intro r2 hr2
                have hm := hCq.1 r2 hr2
                show q ∈ (if r2 = r0 then lremLast (s.members r2) pid else s.members r2)
                by_cases hr : r2 = r0
                · rw [if_pos hr]
                  exact (mem_lremLast_of_ne hqp).mpr hm
                · rw [if_neg hr]
                  exact hm
              · intro r2 hm2
                have hm3 : q ∈ (if r2 = r0 then lremLast (s.members r2) pid else s.members r2)
                  := hm2
                by_cases hr : r2 = r0
                · rw [if_pos hr] at hm3
                  exact hCq.2 r2 ((lremLast_sublist _ _).subset hm3)
                · rw [if_neg hr] at hm3
                  exact hCq.2 r2 hm3

/-- Fresh cache with only player p registered (`room` is "none"). -/
def c1Reg : GameState := registerPlayer (gameCacheInit emptyState) "p" (mkInfo "p")

/-- The state after p joins `room#0`: record and membership agree. -/
def c1Joined : GameState := joinD c1Reg roomZ "p"

/-- Registering p on a fresh cache leaves the store consistent. -/
theorem consistent_c1Reg : Consistent c1Reg := by
  intro pid info h
  have h2 : (if pid = "p" then some (mkInfo "p") else none) = some info := h
  by_cases hp : pid = "p"
  · rw [if_pos hp] at h2
    injection h2 with h3
    subst h3
    constructor
    · intro r hr
      cases hr
    · intro r hm
      have hm2 : pid ∈ ([] : List String) := hm
      cases hm2
  · rw [if_neg hp] at h2
    cases h2

/-- After p joins `room#0` the store is consistent: the record's `room`
field and the membership list agree. -/
theorem consistent_c1Joined : Consistent c1Joined := by
  intro pid info h
  by_cases hp : pid = "p"
  · subst hp
    have h2 : some { mkInfo "p" with room := some roomZ } = some info := by
      have h3 : (if "p" = "p" then some { mkInfo "p" with room := some roomZ }
          else c1Reg.players "p") = some info := h
      rwa [if_pos rfl] at h3
    injection h2 with h3
    subst h3
    constructor
    · intro r hr
      have hr2 : some roomZ = some r := hr
      injection hr2 with hr3
      subst hr3
      show "p" ∈ (if roomZ = roomZ then "p" :: c1Reg.members roomZ else c1Reg.members roomZ)
      rw [if_pos rfl]
      exact List.mem_cons_self _ _
    · intro r hm
      have hm2 : "p" ∈ (if r = roomZ then "p" :: c1Reg.members r else c1Reg.members r) := hm
      by_cases hr : r = roomZ
      · show ({ mkInfo "p" with room := some roomZ }).room = some r
        rw [hr]
      · rw [if_neg hr] at hm2
        have hm3 : "p" ∈ ([] : List String) := hm2
        cases hm3
  · have h2 : (if pid = "p" then some { mkInfo "p" with room := some roomZ }
        else c1Reg.players pid) = some info := h
    rw [if_neg hp] at h2
    have h3 : (if pid = "p" then some (mkInfo "p") else none) = some info := h2
    rw [if_neg hp] at h3
    cases h3

/-- C1 counterexample: from the consistent store in which p's record
names `room#0` and `room#0` lists p, a single `leaveRoom` empties the
membership but leaves the record's `room` field pointing at `room#0`,
breaking the invariant. -/
theorem c1_counterexample :
    Consistent c1Joined ∧ ¬ Consistent (leaveRoom c1Joined roomZ "p") := by
  refine ⟨consistent_c1Joined, ?_⟩
  intro h
  have hp : (leaveRoom c1Joined roomZ "p").players "p" =
      some { mkInfo "p" with room := some roomZ } := by decide
  have hmem := (h "p" _ hp).1 roomZ rfl
  have hz : (leaveRoom c1Joined roomZ "p").members roomZ = [] := by decide
  rw [hz] at hmem
  cases hmem

/-- The state after `deletePlayer` removes p (cascading the leave). -/
def c1AfterDelete : GameState := ((deletePlayer c1Joined "p").getD (emptyState, none)).1

/-- Witness for C1: the amended preservation applied to the concrete
store — joining p keeps it consistent, and deleting p from the joined
store keeps it consistent. -/
theorem c1_witness : Consistent c1Joined ∧ Consistent c1AfterDelete := by
  have h1 := c1_consistency.1 c1Reg roomZ "p" (mkInfo "p") c1Joined
    consistent_c1Reg rfl rfl rfl
  have h2 := c1_consistency.2 c1Joined "p" c1AfterDelete (some roomZ) h1 rfl
  exact ⟨h1, h2⟩

/-! ### C6 — ready counting is idempotent per player -/

theorem length_filter_update {l : List String} (hn : l.Nodup) {x : String} (hx : x ∈ l)
    {p q : String → Bool} (hpx : p x = false) (hqx : q x = true)
    (hagree : ∀ y, y ≠ x → p y = q y) :
    (l.filter q).length = (l.filter p).length + 1 := by
  induction l with
  | nil => cases hx
  | cons a t ih =>
      rw [List.nodup_cons] at hn
      rcases List.mem_cons.mp hx with h1 | h2
      · subst h1
        have hft : t.filter p = t.filter q := by
          apply List.filter_congr
          intro y hy
          exact hagree y (fun hyx => hn.1 (hyx ▸ hy))
        rw [List.filter_cons, List.filter_cons, hpx, hqx]
        simp [hft]
      · have hax : a ≠ x := fun h => hn.1 (h ▸ h2)
        have hpa : p a = q a := hagree a hax
        have iht := ih hn.2 h2
        rw [List.filter_cons, List.filter_cons, ← hpa]
        by_cases hb : p a = true
        · rw [if_pos hb, if_pos hb]
          simp only [List.length_cons]
          rw [iht]
        · rw [if_neg hb, if_neg hb]
          exact iht

/-- Marking an already-ready player again leaves the distinct-ready
count unchanged. -/
theorem markPlayerAsReady_again (s : GameState) (pid : String) (r : RoomName)
    (info : PlayerInfo) (hreg : s.players pid = some info) (hrdy : info.ready = true) :
    (markPlayerAsReady s pid r).2 = readyCount s r := by
  have h2 : (markPlayerAsReady s pid r).2 =
      readyCount { s with players := fun q =>
        if q = pid then some { info with ready := true } else s.players q } r := by
    simp only [markPlayerAsReady, hreg]
  rw [h2]
  show ((s.members r).dedup.filter (readyPred _)).length
    = ((s.members r).dedup.filter (readyPred s)).length
  congr 1
  apply List.filter_congr
  intro y hy
  by_cases hyp : y = pid
  · subst hyp
    simp [readyPred, hreg, hrdy]
  · simp [readyPred, if_neg hyp]

/-- C6: for a member of the room whose record is not yet ready, the
first ready signal raises the distinct-ready count by exactly one, a
second signal from the same player leaves the running total at that same
value (contributing 1, not 2), and the `player_ready_announcement`
emitted to the room carries exactly this running distinct-ready total. -/
theorem c6_ready_idempotent (minPlayers : Nat) (s : GameState) (pid uname : String)
    (r : RoomName) (info : PlayerInfo)
    (hreg : s.players pid = some info) (hmem : pid ∈ s.members r)
    (hnr : info.ready = false) :
    (markPlayerAsReady s pid r).2 = readyCount s r + 1 ∧
    (markPlayerAsReady (markPlayerAsReady s pid r).1 pid r).2 = readyCount s r + 1 ∧
    ((handlePlayerReady minPlayers s pid uname r).2.1).total_ready_count
      = readyCount s r + 1 := by
  have hs1 : (markPlayerAsReady s pid r).1 =
      { s with players := fun q =>
        if q = pid then some { info with ready := true } else s.players q } := by
    simp only [markPlayerAsReady, hreg]
  have hone : (markPlayerAsReady s pid r).2 = readyCount s r + 1 := by
    have h2 : (markPlayerAsReady s pid r).2 =
        readyCount { s with players := fun q =>
          if q = pid then some { info with ready := true } else s.players q } r := by
      simp only [markPlayerAsReady, hreg]
    rw [h2]
    show ((s.members r).dedup.filter (readyPred _)).length
      = ((s.members r).dedup.filter (readyPred s)).length + 1
    apply length_filter_update (List.nodup_dedup _) (List.mem_dedup.mpr hmem)
    · simp [readyPred, hreg, hnr]
    · simp [readyPred]
    · intro y hy
      simp [readyPred, if_neg hy]
  have hs1p : (markPlayerAsReady s pid r).1.players pid = some { info with ready := true } := by
    rw [hs1]
    show (if pid = pid then some { info with ready := true } else s.players pid)
      = some { info with ready := true }
    rw [if_pos rfl]
  refine ⟨hone, ?_, hone⟩
  calc (markPlayerAsReady (markPlayerAsReady s pid r).1 pid r).2
      = readyCount (markPlayerAsReady s pid r).1 r :=
        markPlayerAsReady_again _ pid r _ hs1p rfl
    _ = (markPlayerAsReady s pid r).2 := rfl
    _ = readyCount s r + 1 := hone

/-- Players p and q registered and both members of `room#0`,
nobody ready yet. -/
def c6S : GameState :=
  joinD (joinD ((createNewRoom (registerPlayer (registerPlayer (gameCacheInit emptyState)
    "p" (mkInfo "p")) "q" (mkInfo "q"))).2) roomZ "p") roomZ "q"

/-- Witness for C6: in the two-member room with nobody ready, p readying
once gives running total 1, readying twice still gives 1, and the
announcement carries total 1. -/
theorem c6_witness :
    (markPlayerAsReady c6S "p" roomZ).2 = 1 ∧
    (markPlayerAsReady (markPlayerAsReady c6S "p" roomZ).1 "p" roomZ).2 = 1 ∧
    ((handlePlayerReady 2 c6S "p" "p" roomZ).2.1).total_ready_count = 1 := by
  have h := c6_ready_idempotent 2 c6S "p" "p" roomZ
    { mkInfo "p" with room := some roomZ } (by decide) (by decide) rfl
  have hz : readyCount c6S roomZ = 0 := by decide
  rw [hz] at h
  simpa using h

/-! ### C7 — room names are unique and never reused -/

/-- One `GameCache` call, for executions over an arbitrary sequence of
cache operations on one cache instance (`INCR` makes each creation's
counter bump atomic, so concurrent executions are interleavings of
these). -/
inductive CacheOp where
  | createRoom : CacheOp
  | startGame : RoomName → CacheOp
  | endGame : RoomName → CacheOp
  | joinR : RoomName → String → CacheOp
  | leaveR : RoomName → String → CacheOp
  | registerP : String → PlayerInfo → CacheOp
  | deleteP : String → CacheOp
  | avail : CacheOp

/-- Apply one cache operation, also returning the room names it created
(`createNewRoom` directly, or `getAvaiableRoom` on an empty staged
list). -/
def applyOp (s : GameState) : CacheOp → GameState × List RoomName
  | CacheOp.createRoom => ((createNewRoom s).2, [(createNewRoom s).1])
  | CacheOp.startGame r => ((startGameInRoom s r).1, [])
  | CacheOp.endGame r => (endGameInRoom s r, [])
  | CacheOp.joinR r pid => ((joinRoom s r pid).getD s, [])
  | CacheOp.leaveR r pid => (leaveRoom s r pid, [])
  | CacheOp.registerP pid info => (registerPlayer s pid info, [])
  | CacheOp.deleteP pid => (((deletePlayer s pid).getD (s, none)).1, [])
  | CacheOp.avail =>
      ((getAvaiableRoom s).1, if s.staged.isEmpty then [(getAvaiableRoom s).2] else [])

/-- Run a sequence of cache operations, collecting every room name
created along the way, in creation order. -/
def execOps (s : GameState) : List CacheOp → GameState × List RoomName
  | [] => (s, [])
  | op :: ops =>
      ((execOps (applyOp s op).1 ops).1,
        (applyOp s op).2 ++ (execOps (applyOp s op).1 ops).2)

/-- No cache operation ever decreases the room-sequence counter. -/
theorem applyOp_counter_mono (s : GameState) (op : CacheOp) :
    s.maxRoomNumUsed ≤ (applyOp s op).1.maxRoomNumUsed := by
  cases op with
  | createRoom =>
      show s.maxRoomNumUsed ≤ s.maxRoomNumUsed + 1
      omega
  | startGame r =>
      show s.maxRoomNumUsed ≤ (startGameInRoom s r).1.maxRoomNumUsed
      unfold startGameInRoom
      split <;> exact le_refl _
  | endGame r => exact le_refl _
  | joinR r pid =>
      show s.maxRoomNumUsed ≤ ((joinRoom s r pid).getD s).maxRoomNumUsed
      cases hp : s.players pid <;> simp [joinRoom, hp]
  | leaveR r pid => exact le_refl _
  | registerP pid info => exact le_refl _
  | deleteP pid =>
      show s.maxRoomNumUsed ≤ (((deletePlayer s pid).getD (s, none)).1).maxRoomNumUsed
      cases hp : s.players pid with
      | none => simp [deletePlayer, hp]
      | some info =>
          cases hr : info.room <;> simp [deletePlayer, hp, hr, leaveRoom]
  | avail =>
      show s.maxRoomNumUsed ≤ ((getAvaiableRoom s).1).maxRoomNumUsed
      cases hst : s.staged with
      | nil =>
          simp only [getAvaiableRoom, hst, createNewRoom, unlockRoomJoins]
          omega
      | cons r rest => simp [getAvaiableRoom, hst]

/-- A created name carries exactly the bumped counter value, and the
operation that created it left the counter at that value. -/
theorem applyOp_created (s : GameState) (op : CacheOp) (n : RoomName)
    (h : n ∈ (applyOp s op).2) :
    n.num = s.maxRoomNumUsed + 1 ∧
    (applyOp s op).1.maxRoomNumUsed = s.maxRoomNumUsed + 1 := by
  cases op with
  | createRoom =>
      have h2 : n ∈ [(⟨s.maxRoomNumUsed + 1⟩ : RoomName)] := h
      rw [List.mem_singleton] at h2
      subst h2
      exact ⟨rfl, rfl⟩
  | startGame r => cases h
  | endGame r => cases h
  | joinR r pid => cases h
  | leaveR r pid => cases h
  | registerP pid info => cases h
  | deleteP pid => cases h
  | avail =>
      cases hst : s.staged with
      | nil =>
          have h2 : n ∈ (if s.staged.isEmpty then [(getAvaiableRoom s).2] else []) := h
          rw [hst] at h2
          simp only [List.isEmpty_nil, if_true] at h2
          have hr : (getAvaiableRoom s).2 = ⟨s.maxRoomNumUsed + 1⟩ := by
            simp [getAvaiableRoom, hst, createNewRoom]
          rw [hr, List.mem_singleton] at h2
          subst h2
          refine ⟨rfl, ?_⟩
          show ((getAvaiableRoom s).1).maxRoomNumUsed = s.maxRoomNumUsed + 1
          simp [getAvaiableRoom, hst, createNewRoom, unlockRoomJoins]
      | cons r rest =>
          have h2 : n ∈ (if s.staged.isEmpty then [(getAvaiableRoom s).2] else []) := h
          rw [hst] at h2
          simp at h2

/-- Every name created during an execution has a number strictly above
the counter value the execution started from. -/
theorem execOps_created_gt (ops : List CacheOp) (s : GameState) (n : RoomName)
    (h : n ∈ (execOps s ops).2) : s.maxRoomNumUsed < n.num := by
  induction ops generalizing s with
  | nil => cases h
  | cons op ops ih =>
      have h2 : n ∈ (applyOp s op).2 ++ (execOps (applyOp s op).1 ops).2 := h
      rcases List.mem_append.mp h2 with h3 | h4
      · have := (applyOp_created s op n h3).1
        omega
      · have hlt := ih (applyOp s op).1 h4
        have hm := applyOp_counter_mono s op
        omega

/-- C7: over any sequence of cache operations — creations, joins,
leaves, registrations, deletions, start/end transitions and
`getAvaiableRoom` calls, in any order — the created room names carry
strictly increasing numbers and are pairwise distinct: a name is never
assigned twice, even after `endGameInRoom` has deleted the room bearing
it. -/
theorem c7_room_names_unique (s : GameState) (ops : List CacheOp) :
    ((execOps s ops).2).Pairwise (fun a b => a.num < b.num) ∧
    ((execOps s ops).2).Pairwise (fun a b => a ≠ b) := by
  have hmain : ∀ ops2 s2, ((execOps s2 ops2).2).Pairwise
      (fun a b : RoomName => a.num < b.num) := by
    intro ops2
    induction ops2 with
    | nil =>
        intro s2
        exact List.Pairwise.nil
    | cons op ops3 ih =>
        intro s2
        show ((applyOp s2 op).2 ++ (execOps (applyOp s2 op).1 ops3).2).Pairwise _
        rw [List.pairwise_append]
        refine ⟨?_, ih _, ?_⟩
        · cases op with
          | createRoom => simp [applyOp]
          | startGame r => simp [applyOp]
          | endGame r => simp [applyOp]
          | joinR r pid => simp [applyOp]
          | leaveR r pid => simp [applyOp]
          | registerP pid info => simp [applyOp]
          | deleteP pid => simp [applyOp]
          | avail =>
              show (if s2.staged.isEmpty then [(getAvaiableRoom s2).2] else []).Pairwise _
              split <;> simp
        · intro a ha b hb
          have h1 := applyOp_created s2 op a ha
          have h2 := execOps_created_gt ops3 (applyOp s2 op).1 b hb
          omega
  refine ⟨hmain ops s, (hmain ops s).imp ?_⟩
  intro a b hab hEq
  rw [hEq] at hab
  omega

/-! ### C2 — capacity is not re-enforced after the lock -/

/-- Fresh cache with players A, B, C registered. -/
def c2Base : GameState :=
  registerPlayer (registerPlayer (registerPlayer (gameCacheInit emptyState)
    "A" (mkInfo "A")) "B" (mkInfo "B")) "C" (mkInfo "C")

/-- Step 1: A resolves an available room (creates `room#0`). -/
def c2AvailA : GameState × RoomName := getAvaiableRoom c2Base

/-- Step 2: A passes the pre-lock check (count 0) and runs the admission
segment, joining `room#0`. -/
def c2AfterA : GameState × Bool := (pairAdmitPhase 2 "A" roomZ c2AvailA.1).getD (emptyState, false)

/-- Step 3: B resolves the available room (`room#0`, still staged). -/
def c2AvailB : GameState × RoomName := getAvaiableRoom c2AfterA.1

/-- Step 4: C also resolves the available room, and both B and C read
member count 1 in their pre-lock checks before either admits. -/
def c2AvailC : GameState × RoomName := getAvaiableRoom c2AvailB.1

/-- Step 5: B runs the admission segment, filling the room to the
configured maximum of 2 and starting the game. -/
def c2AfterB : GameState × Bool := (pairAdmitPhase 2 "B" roomZ c2AvailC.1).getD (emptyState, false)

/-- Step 6: C, whose pre-lock check already passed, runs the admission
segment — the count it re-reads after acquiring the lock is 2, the
maximum, yet it is admitted. -/
def c2AfterC : GameState × Bool := (pairAdmitPhase 2 "C" roomZ c2AfterB.1).getD (emptyState, false)

/-- C2 evaluated at the failing interleaving (capacity 2, three
concurrent pair requests): every pre-lock check passes, B fills the room
to the maximum, and C's admission segment re-reads a member count that
already equals the maximum but admits C anyway — `room#0` ends with 3
members, exceeding the configured maximum of 2. -/
theorem c2_overshoot_at_failing_input :
    c2AvailA.2 = roomZ ∧
    pairPrecheckPasses 2 c2AvailA.1 roomZ = true ∧
    pairPrecheckPasses 2 c2AvailB.1 roomZ = true ∧
    pairPrecheckPasses 2 c2AvailC.1 roomZ = true ∧
    getCurrentPlayersCountInRoom (lockRoomJoins c2AfterB.1 roomZ) roomZ = 2 ∧
    (pairAdmitPhase 2 "C" roomZ c2AfterB.1).isSome = true ∧
    c2AfterC.1.members roomZ = ["C", "B", "A"] ∧
    getCurrentPlayersCountInRoom c2AfterC.1 roomZ = 3 := by
  refine ⟨?_, ?_, ?_, ?_, ?_, ?_, ?_, ?_⟩ <;> decide

end MatchServer
